import Mathlib

/-!
# Verification of the Senda escrow interaction layer

A shallow embedding of the address-derivation helpers, the instruction
encoder, and the client orchestration functions of the Senda repository
(`src/lib/senda/helpers.ts`, `src/stores/use-senda-program.ts`,
`src/server/routers/senda.ts`, and the unnamed store drafts), together
with theorems settling the specification claims about them.

Byte buffers are lists of naturals (each entry a byte value), public
keys are their 32-byte buffers, and JavaScript `number` values at
integer points are modelled by their IEEE-754 float64 rounding.
-/

namespace Senda

/-- A byte buffer (Node `Buffer` / `Uint8Array`): a list of byte values. -/
abbrev Bytes := List Nat

/-- Embeds `Buffer.alloc n`: a zero-filled buffer of length `n`. -/
def bufAlloc (n : Nat) : Bytes := List.replicate n 0

/-- Embeds `src.copy(target, off)` (also the semantics of an in-place `write*` call at
offset `off`): overwrite `target` starting at `off` with the bytes of `src`,
truncated to fit `target`. -/
def bufCopy (src target : Bytes) (off : Nat) : Bytes :=
  target.take off ++ src.take (target.length - off) ++ target.drop (off + src.length)

/-- Little-endian byte serialization: the low `w` bytes of `n`, low byte first. -/
def leBytes : Nat → Nat → Bytes
  | 0, _ => []
  | w + 1, n => n % 256 :: leBytes w (n / 256)

/-- Little-endian byte decoding, the inverse of `leBytes` on in-range values. -/
def leDecode : Bytes → Nat
  | [] => 0
  | b :: bs => b + 256 * leDecode bs

theorem leBytes_length : ∀ (w n : Nat), (leBytes w n).length = w
  | 0, _ => rfl
  | w + 1, n => by simp [leBytes, leBytes_length w]

theorem leDecode_leBytes : ∀ (w n : Nat), n < 256 ^ w → leDecode (leBytes w n) = n
  | 0, n, h => by
      simp [leBytes, leDecode]
      omega
  | w + 1, n, h => by
      have hdiv : n / 256 < 256 ^ w := by
        rw [Nat.div_lt_iff_lt_mul (by norm_num)]
        calc n < 256 ^ (w + 1) := h
        _ = 256 ^ w * 256 := by rw [pow_succ]
      simp only [leBytes, leDecode, leDecode_leBytes w (n / 256) hdiv]
      omega

theorem leBytes_injOn {w a b : Nat} (ha : a < 256 ^ w) (hb : b < 256 ^ w)
    (h : leBytes w a = leBytes w b) : a = b := by
  have := congrArg leDecode h
  rwa [leDecode_leBytes w a ha, leDecode_leBytes w b hb] at this

theorem leBytes_split : ∀ (a b n : Nat), leBytes (a + b) n = leBytes a n ++ leBytes b (n / 256 ^ a)
  | 0, b, n => by simp [leBytes]
  | a + 1, b, n => by
      have : a + 1 + b = (a + b) + 1 := by omega
      rw [this]
      simp only [leBytes, leBytes_split a b (n / 256), List.cons_append]
      congr 2
      rw [Nat.div_div_eq_div_mul]
      congr 1
      rw [pow_succ, Nat.mul_comm]

/-- On-ledger addresses. `raw` is an ordinary public key given by its 32-byte
buffer. `pda` is a program-derived address; the external derivation
(`PublicKey.findProgramAddressSync` of `@solana/web3.js`) is not code of this
repository, so per the spec (§4.1: derivation is deterministic, and distinct
seed sequences give distinct addresses) it is modelled injectively by recording
the seed sequence and program id. -/
inductive Addr where
  | raw (bytes : Bytes)
  | pda (seeds : List Bytes) (programId : Bytes)
deriving DecidableEq, Repr

/-- Embeds `PublicKey.toBuffer()`: the byte form of an address. For a raw key these
are its key bytes; for a derived address the model flattens the seed record
(standing in for the 32 hash bytes, which the claims never inspect). -/
def Addr.bytes : Addr → Bytes
  | .raw b => b
  | .pda seeds pid => seeds.flatten ++ pid

/-- Modelled from the spec: `PublicKey.findProgramAddressSync(seeds, programId)`
of `@solana/web3.js` (external to the repository). Deterministic, and distinct
seed sequences yield distinct addresses; the bump is the canonical first valid
bump, modelled as the constant 255. -/
def findProgramAddressSync (seeds : List Bytes) (programId : Bytes) : Addr × Nat :=
  (Addr.pda seeds programId, 255)

/-- ASCII bytes of the seed tag "factory". -/
def factoryTag : Bytes := [102, 97, 99, 116, 111, 114, 121]
/-- ASCII bytes of the seed tag "escrow". -/
def escrowTag : Bytes := [101, 115, 99, 114, 111, 119]
/-- ASCII bytes of the seed tag "deposit". -/
def depositTag : Bytes := [100, 101, 112, 111, 115, 105, 116]

/-- Embeds `findFactoryPDA` of `src/lib/senda/helpers.ts` (lines 4-9):
seeds = ["factory", owner bytes]. -/
def findFactoryPDA (owner : Addr) (programId : Bytes) : Addr × Nat :=
  findProgramAddressSync [factoryTag, owner.bytes] programId

/-- Embeds `findEscrowPDA` of `src/lib/senda/helpers.ts` (lines 18-27):
seeds = ["escrow", sender bytes, receiver bytes]. -/
def findEscrowPDA (sender receiver : Addr) (programId : Bytes) : Addr × Nat :=
  findProgramAddressSync [escrowTag, sender.bytes, receiver.bytes] programId

theorem bufCopy_eq (src target : Bytes) (off : Nat) (h : off + src.length ≤ target.length) :
    bufCopy src target off = target.take off ++ src ++ target.drop (off + src.length) := by
  unfold bufCopy
  rw [List.take_of_length_le (by omega : src.length ≤ target.length - off)]

/-- JS `ToUint32` of an integer value (the coercion `DataView.setUint32` applies). -/
def toUint32 (v : Int) : Nat := (v % (2 ^ 32 : Nat)).toNat

/-- The dual-path u64 buffer write of `src/lib/senda/helpers.ts` (lines 100-108)
and `src/stores/use-senda-program.ts` (lines 519-529, 640-653):
`writeBigUInt64LE(BigInt(v))` succeeds exactly when the integer `v` is in
[0, 2^64); otherwise the thrown `RangeError` is caught and the `DataView`
fallback writes `setUint32(0, v, true); setUint32(4, 0, true)`. -/
def writeU64LEOrFallback (v : Int) : Bytes :=
  if 0 ≤ v ∧ v < (2 ^ 64 : Nat) then leBytes 8 v.toNat
  else leBytes 4 (toUint32 v) ++ leBytes 4 0

/-- A typed argument of `createInstructionData`
(`src/lib/senda/helpers.ts` line 77). -/
inductive IxArg where
  | u8 (v : Int)
  | u64 (v : Int)
  | pubkey (k : Bytes)
deriving DecidableEq, Repr

/-- Declared width of an argument (`helpers.ts` lines 81-87). -/
def argSize : IxArg → Nat
  | .u8 _ => 1
  | .u64 _ => 8
  | .pubkey _ => 32

def sumSizes (args : List IxArg) : Nat := (args.map argSize).sum

/-- The bytes one argument write produces (`helpers.ts` lines 94-115).
`writeUInt8` validates its range and throws (uncaught), hence `none` for an
out-of-range u8; the u64 branch never fails (its errors are caught by the
fallback); a pubkey is copied as its raw buffer. -/
def encodeArg : IxArg → Option Bytes
  | .u8 v => if 0 ≤ v ∧ v < 256 then some [v.toNat] else none
  | .u64 v => some (writeU64LEOrFallback v)
  | .pubkey k => some k

/-- The canonical (in-range) encoding of an argument: u8 as 1 byte, u64 as
8 bytes little-endian, pubkey as 32 raw bytes. -/
def encodeArgCanon : IxArg → Bytes
  | .u8 v => [v.toNat]
  | .u64 v => leBytes 8 v.toNat
  | .pubkey k => k

/-- In-range validity of an argument: u8 in [0, 256), u64 in [0, 2^64),
pubkey of 32 bytes. -/
def argOk : IxArg → Bool
  | .u8 v => decide (0 ≤ v) && decide (v < 256)
  | .u64 v => decide (0 ≤ v) && decide (v < (2 ^ 64 : Nat))
  | .pubkey k => k.length == 32

/-- The argument-writing loop of `createInstructionData`
(`helpers.ts` lines 93-116). -/
def writeArgs : Bytes → Nat → List IxArg → Option Bytes
  | data, _, [] => some data
  | data, off, a :: rest =>
    match encodeArg a with
    | none => none
    | some bs => writeArgs (bufCopy bs data off) (off + argSize a) rest

/-- Embeds `createInstructionData` of `src/lib/senda/helpers.ts` (lines 75-119):
allocate `8 + sum of widths` zero bytes, copy the discriminator at offset 0
(entries coerced to bytes by `Buffer.from`), then write the arguments in
order starting at offset 8. -/
def createInstructionData (disc : List Nat) (args : List IxArg) : Option Bytes :=
  let totalSize := 8 + sumSizes args
  writeArgs (bufCopy (disc.map (· % 256)) (bufAlloc totalSize) 0) 8 args

theorem encodeArg_of_ok {a : IxArg} (h : argOk a = true) :
    encodeArg a = some (encodeArgCanon a) ∧ (encodeArgCanon a).length = argSize a := by
  cases a with
  | u8 v =>
      simp only [argOk, Bool.and_eq_true, decide_eq_true_eq] at h
      simp [encodeArg, encodeArgCanon, argSize, h]
  | u64 v =>
      simp only [argOk, Bool.and_eq_true, decide_eq_true_eq] at h
      refine ⟨?_, leBytes_length 8 v.toNat⟩
      show some (writeU64LEOrFallback v) = some (leBytes 8 v.toNat)
      rw [writeU64LEOrFallback, if_pos h]
  | pubkey k =>
      simp only [argOk, beq_iff_eq] at h
      simp [encodeArg, encodeArgCanon, argSize, h]

theorem writeArgs_spec : ∀ (args : List IxArg) (data : Bytes) (off : Nat),
    (∀ a ∈ args, argOk a = true) →
    data.length = off + sumSizes args →
    writeArgs data off args = some (data.take off ++ (args.map encodeArgCanon).flatten)
  | [], data, off, _, hlen => by
      simp only [sumSizes, List.map_nil, List.sum_nil, Nat.add_zero] at hlen
      simp [writeArgs, List.take_of_length_le (Nat.le_of_eq hlen)]
  | a :: rest, data, off, hok, hlen => by
      have ha : argOk a = true := hok a (List.mem_cons_self a rest)
      obtain ⟨henc, hcanonLen⟩ := encodeArg_of_ok ha
      have hsum : sumSizes (a :: rest) = argSize a + sumSizes rest := by
        simp [sumSizes]
      have hfit : off + (encodeArgCanon a).length ≤ data.length := by
        rw [hcanonLen, hlen, hsum]; omega
      have hnew : bufCopy (encodeArgCanon a) data off =
          data.take off ++ encodeArgCanon a ++ data.drop (off + (encodeArgCanon a).length) :=
        bufCopy_eq _ _ _ hfit
      have htakeLen : (data.take off).length = off := by
        rw [List.length_take]; omega
      have hnewLen : (bufCopy (encodeArgCanon a) data off).length =
          (off + argSize a) + sumSizes rest := by
        rw [hnew]
        simp only [List.length_append, List.length_drop, htakeLen, hcanonLen]
        rw [hlen, hsum]
        omega
      have hrest := writeArgs_spec rest (bufCopy (encodeArgCanon a) data off)
        (off + argSize a) (fun b hb => hok b (List.mem_cons_of_mem a hb)) hnewLen
      have htake : (bufCopy (encodeArgCanon a) data off).take (off + argSize a) =
          data.take off ++ encodeArgCanon a := by
        rw [hnew, List.take_left' (by rw [List.length_append, htakeLen, hcanonLen])]
      simp only [writeArgs, henc]
      rw [hrest, htake]
      simp only [List.map_cons, List.flatten_cons, List.append_assoc]

theorem flatten_canon_length {args : List IxArg} (h : ∀ a ∈ args, argOk a = true) :
    ((args.map encodeArgCanon).flatten).length = sumSizes args := by
  induction args with
  | nil => simp [sumSizes]
  | cons a rest ih =>
      have ha := (encodeArg_of_ok (h a (List.mem_cons_self a rest))).2
      simp only [List.map_cons, List.flatten_cons, List.length_append, sumSizes, List.sum_cons,
        ha]
      rw [ih (fun b hb => h b (List.mem_cons_of_mem a hb))]
      rfl

/-- End-to-end layout of `createInstructionData`: discriminator bytes followed
by the canonical argument encodings, with no padding. -/
theorem createInstructionData_eq (disc : List Nat) (args : List IxArg)
    (hd : disc.length = 8) (hb : ∀ b ∈ disc, b < 256)
    (hargs : ∀ a ∈ args, argOk a = true) :
    createInstructionData disc args = some (disc ++ (args.map encodeArgCanon).flatten) := by
  have hmap : disc.map (· % 256) = disc := by
    conv_rhs => rw [← List.map_id disc]
    exact List.map_congr_left (fun b hbmem => Nat.mod_eq_of_lt (hb b hbmem))
  have hmapLen : (disc.map (· % 256)).length = 8 := by rw [List.length_map, hd]
  have hallocLen : (bufAlloc (8 + sumSizes args)).length = 8 + sumSizes args := by
    simp [bufAlloc]
  have hinit : bufCopy (disc.map (· % 256)) (bufAlloc (8 + sumSizes args)) 0 =
      disc.map (· % 256) ++ (bufAlloc (8 + sumSizes args)).drop 8 := by
    rw [bufCopy_eq _ _ _ (by omega), hmapLen]
    simp
  have hinitLen : (bufCopy (disc.map (· % 256)) (bufAlloc (8 + sumSizes args)) 0).length =
      8 + sumSizes args := by
    rw [hinit]
    simp only [List.length_append, List.length_drop, hmapLen, hallocLen]
    omega
  unfold createInstructionData
  rw [writeArgs_spec args _ 8 hargs hinitLen, hinit, List.take_left' hmapLen, hmap]

/-- Bit length of a natural number, with explicit fuel (the first argument);
exact whenever the fuel is at least the bit length, in particular for every
`n < 2 ^ 128` with fuel 128. -/
def bitLenAux : Nat → Nat → Nat
  | 0, _ => 0
  | fuel + 1, n => if n = 0 then 0 else bitLenAux fuel (n / 2) + 1

/-- Bit length of a natural number below `2 ^ 128`. -/
def bitLen (n : Nat) : Nat := bitLenAux 128 n

/-- Modelled from the spec: the conversion a JavaScript `number` parameter
applies to an integer value (IEEE-754 float64, round to nearest, ties to
even). The repository's index and amount parameters are typed `number`, so
this is the value the functions actually receive for an intended integer
(exact below `2 ^ 53`, rounded to a multiple of the unit in the last place
above). Valid for `n < 2 ^ 128`. -/
def jsFloatOfNat (n : Nat) : Nat :=
  if n < 2 ^ 53 then n
  else
    let ulp := 2 ^ (bitLen n - 53)
    let q := n / ulp
    let r := n % ulp
    if 2 * r < ulp then q * ulp
    else if ulp < 2 * r then (q + 1) * ulp
    else if q % 2 = 0 then q * ulp else (q + 1) * ulp

/-- The try-branch of the deposit-index serialization
(`src/lib/senda/helpers.ts` line 49): `writeBigUInt64LE(BigInt(depositIdx))`
on an 8-byte buffer; valid when the index is in [0, 2^64). -/
def idxBufBigIntPath (v : Nat) : Bytes := leBytes 8 v

/-- The catch-branch (`DataView` fallback) of the deposit-index serialization
(`helpers.ts` lines 51-55): `setUint32(0, depositIdx, true);
setUint32(4, 0, true)` — the low 32 bits, then a zero high word. -/
def idxBufDataViewPath (v : Nat) : Bytes := leBytes 4 (v % 2 ^ 32) ++ leBytes 4 0

/-- The 8-byte index buffer `findDepositRecordPDA` builds
(`helpers.ts` lines 47-56): the BigInt write when it succeeds, the
`DataView` fallback when it throws. -/
def depositIdxBuf (v : Nat) : Bytes :=
  if v < 2 ^ 64 then idxBufBigIntPath v else idxBufDataViewPath v

/-- Embeds `findDepositRecordPDA` of `src/lib/senda/helpers.ts` (lines 41-62):
seeds = ["deposit", escrow bytes, 8-byte index buffer]. `depositIdx` is the
(float64) `number` value the function receives. -/
def findDepositRecordPDA (escrowPda : Addr) (depositIdx : Nat) (programId : Bytes) :
    Addr × Nat :=
  findProgramAddressSync [depositTag, escrowPda.bytes, depositIdxBuf depositIdx] programId

/-- Discriminator for init_escrow (`src/unnamed/part_003` line 490,
`src/stores/use-senda-program.ts` line 428). -/
def initEscrowDisc : List Nat := [243, 160, 77, 153, 11, 92, 48, 209]
/-- Discriminator for deposit (`part_003` line 581, `use-senda-program.ts`
line 516). -/
def depositDisc : List Nat := [98, 231, 20, 217, 235, 33, 213, 28]
/-- Discriminator for cancel (`part_003` line 697, `use-senda-program.ts`
line 635). -/
def cancelDisc : List Nat := [232, 219, 223, 41, 219, 236, 220, 190]
/-- Discriminator for release (`part_003` line 793, `use-senda-program.ts`
line 767). -/
def releaseDisc : List Nat := [253, 249, 15, 206, 28, 127, 193, 241]

/-- InitEscrow instruction data (`src/unnamed/part_003` lines 489-492):
discriminator plus the u64 seed. -/
def initEscrowData (seed : Int) : Option Bytes :=
  createInstructionData initEscrowDisc [IxArg.u64 seed]

/-- Deposit instruction data (`src/unnamed/part_003` lines 580-583):
discriminator plus the u64 amount in minor units. -/
def depositData (amount : Int) : Option Bytes :=
  createInstructionData depositDisc [IxArg.u64 amount]

/-- Cancel instruction data (`src/unnamed/part_003` lines 696-698):
discriminator plus the u64 deposit index. -/
def cancelData (depositIdx : Int) : Option Bytes :=
  createInstructionData cancelDisc [IxArg.u64 depositIdx]

/-- Release instruction data (`src/unnamed/part_003` lines 792-794):
discriminator plus the u64 deposit index. -/
def releaseData (depositIdx : Int) : Option Bytes :=
  createInstructionData releaseDisc [IxArg.u64 depositIdx]

/-- InitFactory instruction data (`src/unnamed/part_003` line 382):
`Buffer.from([0])`, a single byte. -/
def initFactoryData : Bytes := [0]

/-- InitEscrow instruction data as built by the other store draft
(`src/stores/use-senda-program.ts` line 428): the discriminator alone,
with no seed argument. -/
def storeInitEscrowData : Bytes := [243, 160, 77, 153, 11, 92, 48, 209]

/-- Token choice (`src/stores/use-senda-program.ts` line 12). -/
inductive Stable where
  | usdc
  | usdt
deriving DecidableEq, Repr

/-- Authorization policy choice (`use-senda-program.ts` line 13). -/
inductive AuthorizedBy where
  | sender
  | receiver
  | both
deriving DecidableEq, Repr

/-- The connected state of `program.provider`: its public key (absent in
read-only mode) and whether a wallet capability is attached. -/
structure Provider where
  pubkey : Option Addr
  hasWallet : Bool
deriving DecidableEq, Repr

/-- Embeds `DepositParams` (`use-senda-program.ts` lines 38-45); the base58 string
keys are modelled by the decoded addresses, and `amount` is taken at the
integer points of its JS `number` type. -/
structure DepositParams where
  escrowPublicKey : Addr
  depositorPublicKey : Addr
  counterpartyPublicKey : Addr
  stable : Stable
  authorization : AuthorizedBy
  amount : Int
deriving DecidableEq, Repr

/-- Embeds `CancelParams` (`use-senda-program.ts` lines 47-52). -/
structure CancelParams where
  escrowPublicKey : Addr
  depositorPublicKey : Addr
  counterpartyPublicKey : Addr
  depositIdx : Nat
deriving DecidableEq, Repr

/-- The instruction handed to `executeTransaction`; the claims concern its
data bytes and its deposit-record account, so the remaining account metas
are omitted. -/
structure BuiltIx where
  data : Bytes
  depositRecord : Addr
deriving DecidableEq, Repr

def isOk : Except String BuiltIx → Bool
  | .ok _ => true
  | .error _ => false

def walletRequiredDepositMsg : String :=
  "Wallet connection required for deposit operations. Please connect your wallet to continue."

def depositorMismatchMsg : String :=
  "The connected wallet does not match the expected depositor. Please connect the correct wallet."

def walletRequiredCancelMsg : String :=
  "Wallet connection required for deposit cancellation. Please connect your wallet to continue."

/-- Embeds `createDeposit` of `src/stores/use-senda-program.ts` (lines 459-591), up
to the hand-off to `executeTransaction`: `Except.error` models a thrown error
(caught at line 583 and returned as a failure result, with no retry),
`Except.ok` the built instruction handed to the executor. The wallet check
compares the connected key with the expected depositor (lines 481-487); the
deposit index is the constant 0 of line 533 written with `writeUInt32LE`
into an 8-byte buffer (lines 534-535); the data buffer is the 16-byte
discriminator-plus-amount write of lines 513-530. -/
def storeCreateDeposit (program : Option Provider) (p : DepositParams) (programId : Bytes) :
    Except String BuiltIx :=
  match program with
  | none => .error "Program not initialized"
  | some prov =>
    match prov.pubkey, prov.hasWallet with
    | none, _ => .error walletRequiredDepositMsg
    | some _, false => .error walletRequiredDepositMsg
    | some w, true =>
      if w.bytes = p.depositorPublicKey.bytes then
        let instructionData :=
          bufCopy (writeU64LEOrFallback (p.amount * 1000000))
            (bufCopy depositDisc (bufAlloc 16) 0) 8
        let depositCount : Nat := 0
        let depositCountBuf := bufCopy (leBytes 4 depositCount) (bufAlloc 8) 0
        let depositRecord :=
          (findProgramAddressSync [depositTag, p.escrowPublicKey.bytes, depositCountBuf]
            programId).1
        .ok { data := instructionData, depositRecord := depositRecord }
      else .error depositorMismatchMsg

/-- Embeds `cancelDeposit` of `src/stores/use-senda-program.ts` (lines 593-716), up
to the hand-off to `executeTransaction`. After the program and
wallet-connected checks (lines 600-608) it derives and submits without
reading any account state: the data buffer is the 16-byte
discriminator-plus-index write of lines 634-655 and the record address uses
the index buffer of lines 657-679. -/
def storeCancelDeposit (program : Option Provider) (p : CancelParams) (programId : Bytes) :
    Except String BuiltIx :=
  match program with
  | none => .error "Program not initialized"
  | some prov =>
    match prov.pubkey, prov.hasWallet with
    | none, _ => .error walletRequiredCancelMsg
    | some _, false => .error walletRequiredCancelMsg
    | some _, true =>
      let data :=
        bufCopy (writeU64LEOrFallback (p.depositIdx : Int))
          (bufCopy cancelDisc (bufAlloc 16) 0) 8
      let depositIdxBufForPDA := writeU64LEOrFallback (p.depositIdx : Int)
      let depositRecord :=
        (findProgramAddressSync [depositTag, p.escrowPublicKey.bytes, depositIdxBufForPDA]
          programId).1
      .ok { data := data, depositRecord := depositRecord }

/-- The on-ledger account state this layer reads: the set of existing
account addresses (spec §6: `getAccountInfo(address) -> bytes | absent`,
used here only as an existence check). -/
structure Ledger where
  accounts : List Addr
deriving DecidableEq, Repr

def Ledger.hasAccount (l : Ledger) (a : Addr) : Bool := decide (a ∈ l.accounts)

/-- The reply of the server `initEscrow` procedure. -/
structure InitEscrowReply where
  signature : String
  escrow : Addr
deriving DecidableEq, Repr

/-- Embeds `initEscrow` of `src/server/routers/senda.ts` (lines 72-135): derive the
escrow address from (sender, receiver) (the seed is passed to the
instruction, not used in derivation), return success with an empty signature
if the account already exists (lines 104-107), otherwise submit
`initializeEscrow(seed)`. Modelled from the spec: `getAccountInfo` and
`sendAndConfirm` are the external ledger interface (§6), and a confirmed
`initializeEscrow` creates exactly the escrow account at the derived
address; the ATA prerequisites and signer loading are outside the model. -/
def serverInitEscrow (l : Ledger) (sender receiver : Addr) (_seed : Int) (programId : Bytes) :
    InitEscrowReply × Ledger :=
  let escrowPda := (findEscrowPDA sender receiver programId).1
  if l.hasAccount escrowPda then ({ signature := "", escrow := escrowPda }, l)
  else ({ signature := "confirmed", escrow := escrowPda }, ⟨escrowPda :: l.accounts⟩)

/-! ## Claim theorems -/

/-- Claim C9: for every pair of distinct public keys A and B,
`deriveEscrow(A, B)` yields a different address than `deriveEscrow(B, A)`,
because the sender/receiver order is part of the seed sequence. -/
theorem claim9_escrow_order_matters (A B programId : Bytes) (h : A ≠ B) :
    (findEscrowPDA (Addr.raw A) (Addr.raw B) programId).1 ≠
      (findEscrowPDA (Addr.raw B) (Addr.raw A) programId).1 := by
  simp only [findEscrowPDA, findProgramAddressSync, Addr.bytes]
  intro hEq
  injection hEq with hs _
  simp only [List.cons.injEq] at hs
  exact h hs.2.1

/-- Witness for C9 at the concrete keys [0] and [1]. -/
theorem claim9_witness :
    (findEscrowPDA (Addr.raw [0]) (Addr.raw [1]) [9]).1 ≠
      (findEscrowPDA (Addr.raw [1]) (Addr.raw [0]) [9]).1 :=
  claim9_escrow_order_matters [0] [1] [9] (by decide)

/-- Claim C10: for every deposit index strictly below `2 ^ 32`, the 64-bit
BigInt write and the `DataView` 32-bit fallback produce identical 8-byte
little-endian buffers, so the derived deposit-record address is independent
of which path executes. -/
theorem claim10_paths_agree (idx : Nat) (h : idx < 2 ^ 32) (e programId : Bytes) :
    idxBufBigIntPath idx = idxBufDataViewPath idx ∧
    (idxBufBigIntPath idx).length = 8 ∧
    findProgramAddressSync [depositTag, e, idxBufBigIntPath idx] programId =
      findProgramAddressSync [depositTag, e, idxBufDataViewPath idx] programId := by
  have hpow : (256 : Nat) ^ 4 = 2 ^ 32 := by norm_num
  have key : idxBufBigIntPath idx = idxBufDataViewPath idx := by
    unfold idxBufBigIntPath idxBufDataViewPath
    have h8 : (8 : Nat) = 4 + 4 := rfl
    rw [h8, leBytes_split 4 4 idx, Nat.div_eq_of_lt (by rw [hpow]; exact h),
      Nat.mod_eq_of_lt h]
  exact ⟨key, leBytes_length 8 idx, by rw [key]⟩

/-- Witness for C10 at index 7. -/
theorem claim10_witness :
    idxBufBigIntPath 7 = idxBufDataViewPath 7 ∧
    (idxBufBigIntPath 7).length = 8 ∧
    findProgramAddressSync [depositTag, [1], idxBufBigIntPath 7] [2] =
      findProgramAddressSync [depositTag, [1], idxBufDataViewPath 7] [2] :=
  claim10_paths_agree 7 (by decide) [1] [2]

/-- Claim C2 is refuted at index `2 ^ 53 + 1`: the index parameter is a JS
`number` (float64), so the value the serializer receives for the intended
index `2 ^ 53 + 1` is the rounded `2 ^ 53`; the resulting buffer is not the
little-endian form of `2 ^ 53 + 1`, and the derived deposit-record address
collides with the one for index `2 ^ 53`. -/
theorem claim2_counterexample :
    jsFloatOfNat (2 ^ 53 + 1) = 2 ^ 53 ∧
    depositIdxBuf (jsFloatOfNat (2 ^ 53 + 1)) ≠ leBytes 8 (2 ^ 53 + 1) ∧
    (findDepositRecordPDA (Addr.raw [1]) (jsFloatOfNat (2 ^ 53 + 1)) [2]).1 =
      (findDepositRecordPDA (Addr.raw [1]) (jsFloatOfNat (2 ^ 53)) [2]).1 := by
  decide

/-- Claim C2 as amended: for every deposit index up to `2 ^ 53` the float64
parameter transmits the index exactly, and `findDepositRecordPDA` serializes
it as exactly 8 little-endian bytes (decoding back to the index) as the
third seed. -/
theorem claim2_amended (e : Addr) (programId : Bytes) (n : Nat) (h : n ≤ 2 ^ 53) :
    jsFloatOfNat n = n ∧
    (findDepositRecordPDA e (jsFloatOfNat n) programId).1 =
      Addr.pda [depositTag, e.bytes, leBytes 8 n] programId ∧
    (leBytes 8 n).length = 8 ∧
    leDecode (leBytes 8 n) = n := by
  have hfl : jsFloatOfNat n = n := by
    rcases Nat.lt_or_ge n (2 ^ 53) with hlt | hge
    · rw [jsFloatOfNat, if_pos hlt]
    · have hn : n = 2 ^ 53 := Nat.le_antisymm h hge
      subst hn
      decide
  have hlt64 : n < 2 ^ 64 := lt_of_le_of_lt h (by norm_num)
  have h256 : n < 256 ^ 8 := by
    have e1 : (2 : Nat) ^ 64 = 18446744073709551616 := by norm_num
    have e2 : (256 : Nat) ^ 8 = 18446744073709551616 := by norm_num
    omega
  refine ⟨hfl, ?_, leBytes_length 8 n, leDecode_leBytes 8 n h256⟩
  simp only [findDepositRecordPDA, findProgramAddressSync, hfl, depositIdxBuf,
    idxBufBigIntPath]
  rw [if_pos hlt64]

/-- Witness for the amended C2 at index 5. -/
theorem claim2_witness :
    jsFloatOfNat 5 = 5 ∧
    (findDepositRecordPDA (Addr.raw [3]) (jsFloatOfNat 5) [4]).1 =
      Addr.pda [depositTag, (Addr.raw [3]).bytes, leBytes 8 5] [4] ∧
    (leBytes 8 5).length = 8 ∧
    leDecode (leBytes 8 5) = 5 :=
  claim2_amended (Addr.raw [3]) [4] 5 (by norm_num)

/-- Claim C3 is refuted: a negative u64 value and a value of `2 ^ 64` are
not rejected by the encoder — the failed 64-bit write is caught and the
`DataView` fallback silently emits a corrupted encoding (the JS `ToUint32`
of the value as the low word, zero as the high word). -/
theorem claim3_counterexample :
    depositData (-1) = some (depositDisc ++ [255, 255, 255, 255, 0, 0, 0, 0]) ∧
    depositData (2 ^ 64) = some (depositDisc ++ [0, 0, 0, 0, 0, 0, 0, 0]) := by
  decide

/-- Claim C3 as amended: u64 values within [0, 2^64) — including values
above `2 ^ 53` — are upconverted by the `BigInt` path and encoded exactly as
8 little-endian bytes (the encoding decodes back to the value); out-of-range
values are not rejected but silently fall back to a 32-bit write, as the
counterexample shows. -/
theorem claim3_amended (v : Int) (h1 : 0 ≤ v) (h2 : v < (2 ^ 64 : Nat)) :
    depositData v = some (depositDisc ++ leBytes 8 v.toNat) ∧
    leDecode (leBytes 8 v.toNat) = v.toNat := by
  have hok : ∀ a ∈ [IxArg.u64 v], argOk a = true := by
    intro a ha
    simp only [List.mem_singleton] at ha
    subst ha
    simp only [argOk, Bool.and_eq_true, decide_eq_true_eq]
    exact ⟨h1, h2⟩
  have henc := createInstructionData_eq depositDisc [IxArg.u64 v] rfl (by decide) hok
  constructor
  · rw [depositData, henc]
    simp [encodeArgCanon]
  · apply leDecode_leBytes
    have h2' : v < (18446744073709551616 : Int) := by
      have hcast : ((2 ^ 64 : Nat) : Int) = 18446744073709551616 := by norm_num
      exact hcast ▸ h2
    have e2 : (256 : Nat) ^ 8 = 18446744073709551616 := by norm_num
    omega

/-- Witness for the amended C3 at the value `2 ^ 53 + 7`. -/
theorem claim3_witness :
    depositData (2 ^ 53 + 7) = some (depositDisc ++ leBytes 8 ((2 ^ 53 + 7 : Int)).toNat) ∧
    leDecode (leBytes 8 ((2 ^ 53 + 7 : Int)).toNat) = ((2 ^ 53 + 7 : Int)).toNat :=
  claim3_amended (2 ^ 53 + 7) (by decide) (by decide)

/-- Claim C4: for every encoded operation with an 8-byte discriminator and
in-range arguments, the output is the discriminator followed by the
concatenated argument encodings in order (u8 as 1 byte, u64 as 8 bytes
little-endian, pubkey as 32 raw bytes), with total length exactly 8 plus the
sum of the argument widths and no padding. -/
theorem claim4_encoder_layout (disc : List Nat) (args : List IxArg)
    (hd : disc.length = 8) (hb : ∀ b ∈ disc, b < 256)
    (hargs : ∀ a ∈ args, argOk a = true) :
    createInstructionData disc args = some (disc ++ (args.map encodeArgCanon).flatten) ∧
    (disc ++ (args.map encodeArgCanon).flatten).length = 8 + sumSizes args := by
  refine ⟨createInstructionData_eq disc args hd hb hargs, ?_⟩
  rw [List.length_append, hd, flatten_canon_length hargs]

/-- Witness for C4: a u8, a u64 and a pubkey argument behind the deposit
discriminator. -/
theorem claim4_witness :
    createInstructionData depositDisc
        [IxArg.u8 2, IxArg.u64 5, IxArg.pubkey (List.replicate 32 7)] =
      some (depositDisc ++
        ([IxArg.u8 2, IxArg.u64 5, IxArg.pubkey (List.replicate 32 7)].map
          encodeArgCanon).flatten) ∧
    (depositDisc ++
        ([IxArg.u8 2, IxArg.u64 5, IxArg.pubkey (List.replicate 32 7)].map
          encodeArgCanon).flatten).length =
      8 + sumSizes [IxArg.u8 2, IxArg.u64 5, IxArg.pubkey (List.replicate 32 7)] :=
  claim4_encoder_layout depositDisc
    [IxArg.u8 2, IxArg.u64 5, IxArg.pubkey (List.replicate 32 7)]
    rfl (by decide) (by decide)

/-- Claim C5 is refuted: the only initFactory implementation
(`src/unnamed/part_003` line 382) builds a single-byte data buffer, not an
8-byte discriminator, and the store draft (`use-senda-program.ts` line 428)
encodes InitEscrow as the bare discriminator (8 bytes, no u64 seed). -/
theorem claim5_counterexample :
    initFactoryData.length ≠ 8 ∧ storeInitEscrowData.length ≠ 16 := by
  decide

/-- Claim C5 as amended: InitEscrow (in the `part_003` draft), Deposit,
Cancel and Release are each encoded as their fixed 8-byte discriminator
followed by one u64 argument, 16 bytes in total; InitFactory's data is the
single byte 0, and the `use-senda-program.ts` draft encodes InitEscrow as
the discriminator alone without the seed. -/
theorem claim5_amended (v : Int) (h1 : 0 ≤ v) (h2 : v < (2 ^ 64 : Nat)) :
    initEscrowData v = some (initEscrowDisc ++ leBytes 8 v.toNat) ∧
    depositData v = some (depositDisc ++ leBytes 8 v.toNat) ∧
    cancelData v = some (cancelDisc ++ leBytes 8 v.toNat) ∧
    releaseData v = some (releaseDisc ++ leBytes 8 v.toNat) ∧
    (initEscrowDisc ++ leBytes 8 v.toNat).length = 16 ∧
    (depositDisc ++ leBytes 8 v.toNat).length = 16 ∧
    (cancelDisc ++ leBytes 8 v.toNat).length = 16 ∧
    (releaseDisc ++ leBytes 8 v.toNat).length = 16 ∧
    initFactoryData = [0] ∧
    storeInitEscrowData = initEscrowDisc := by
  have hok : ∀ a ∈ [IxArg.u64 v], argOk a = true := by
    intro a ha
    simp only [List.mem_singleton] at ha
    subst ha
    simp only [argOk, Bool.and_eq_true, decide_eq_true_eq]
    exact ⟨h1, h2⟩
  have hlen : (leBytes 8 v.toNat).length = 8 := leBytes_length 8 v.toNat
  have hflat : ([IxArg.u64 v].map encodeArgCanon).flatten = leBytes 8 v.toNat := by
    simp [encodeArgCanon]
  refine ⟨?_, ?_, ?_, ?_, ?_, ?_, ?_, ?_, rfl, rfl⟩
  · rw [initEscrowData, createInstructionData_eq initEscrowDisc _ rfl (by decide) hok, hflat]
  · rw [depositData, createInstructionData_eq depositDisc _ rfl (by decide) hok, hflat]
  · rw [cancelData, createInstructionData_eq cancelDisc _ rfl (by decide) hok, hflat]
  · rw [releaseData, createInstructionData_eq releaseDisc _ rfl (by decide) hok, hflat]
  · rw [List.length_append, hlen]; rfl
  · rw [List.length_append, hlen]; rfl
  · rw [List.length_append, hlen]; rfl
  · rw [List.length_append, hlen]; rfl

/-- Witness for the amended C5 at the value 1. -/
theorem claim5_witness :
    initEscrowData 1 = some (initEscrowDisc ++ leBytes 8 ((1 : Int)).toNat) ∧
    depositData 1 = some (depositDisc ++ leBytes 8 ((1 : Int)).toNat) ∧
    cancelData 1 = some (cancelDisc ++ leBytes 8 ((1 : Int)).toNat) ∧
    releaseData 1 = some (releaseDisc ++ leBytes 8 ((1 : Int)).toNat) ∧
    (initEscrowDisc ++ leBytes 8 ((1 : Int)).toNat).length = 16 ∧
    (depositDisc ++ leBytes 8 ((1 : Int)).toNat).length = 16 ∧
    (cancelDisc ++ leBytes 8 ((1 : Int)).toNat).length = 16 ∧
    (releaseDisc ++ leBytes 8 ((1 : Int)).toNat).length = 16 ∧
    initFactoryData = [0] ∧
    storeInitEscrowData = initEscrowDisc :=
  claim5_amended 1 (by decide) (by decide)

theorem serverInitEscrow_absent (l : Ledger) (s r : Addr) (seed : Int) (pid : Bytes)
    (h : (findEscrowPDA s r pid).1 ∉ l.accounts) :
    serverInitEscrow l s r seed pid =
      ({ signature := "confirmed", escrow := (findEscrowPDA s r pid).1 },
        ⟨(findEscrowPDA s r pid).1 :: l.accounts⟩) := by
  simp [serverInitEscrow, Ledger.hasAccount, h]

theorem serverInitEscrow_present (l : Ledger) (s r : Addr) (seed : Int) (pid : Bytes)
    (h : (findEscrowPDA s r pid).1 ∈ l.accounts) :
    serverInitEscrow l s r seed pid =
      ({ signature := "", escrow := (findEscrowPDA s r pid).1 }, l) := by
  simp [serverInitEscrow, Ledger.hasAccount, h]

/-- Claim C6: if the derived escrow account does not yet exist, the first
server `initEscrow` creates it and a second identical call is a success
no-op (empty signature, ledger unchanged), leaving exactly one escrow
account at the derived address. -/
theorem claim6_initEscrow_idempotent (l : Ledger) (sender receiver : Addr) (seed : Int)
    (programId : Bytes)
    (h : (findEscrowPDA sender receiver programId).1 ∉ l.accounts) :
    (serverInitEscrow (serverInitEscrow l sender receiver seed programId).2
        sender receiver seed programId).2 =
      (serverInitEscrow l sender receiver seed programId).2 ∧
    (serverInitEscrow (serverInitEscrow l sender receiver seed programId).2
        sender receiver seed programId).1.signature = "" ∧
    (serverInitEscrow (serverInitEscrow l sender receiver seed programId).2
        sender receiver seed programId).1.escrow =
      (findEscrowPDA sender receiver programId).1 ∧
    ((serverInitEscrow (serverInitEscrow l sender receiver seed programId).2
        sender receiver seed programId).2.accounts.filter
      (fun a => decide (a = (findEscrowPDA sender receiver programId).1))).length = 1 := by
  have hfirst := serverInitEscrow_absent l sender receiver seed programId h
  have hmem : (findEscrowPDA sender receiver programId).1 ∈
      (findEscrowPDA sender receiver programId).1 :: l.accounts :=
    List.mem_cons_self _ _
  have hsecond := serverInitEscrow_present
    ⟨(findEscrowPDA sender receiver programId).1 :: l.accounts⟩ sender receiver seed
    programId hmem
  have hL : (serverInitEscrow l sender receiver seed programId).2 =
      ⟨(findEscrowPDA sender receiver programId).1 :: l.accounts⟩ := by rw [hfirst]
  have hnil : l.accounts.filter
      (fun a => decide (a = (findEscrowPDA sender receiver programId).1)) = [] := by
    rw [List.filter_eq_nil_iff]
    intro a ha
    simp only [decide_eq_true_eq]
    intro heq
    exact h (heq ▸ ha)
  refine ⟨?_, ?_, ?_, ?_⟩
  · rw [hL, hsecond]
  · rw [hL, hsecond]
  · rw [hL, hsecond]
  · rw [hL, hsecond]
    show (((findEscrowPDA sender receiver programId).1 :: l.accounts).filter
        (fun a => decide (a = (findEscrowPDA sender receiver programId).1))).length = 1
    rw [List.filter_cons_of_pos (by simp), hnil]
    rfl

/-- Witness for C6 on an empty ledger. -/
theorem claim6_witness :
    (serverInitEscrow (serverInitEscrow ⟨[]⟩ (Addr.raw [1]) (Addr.raw [2]) 0 [3]).2
        (Addr.raw [1]) (Addr.raw [2]) 0 [3]).2 =
      (serverInitEscrow ⟨[]⟩ (Addr.raw [1]) (Addr.raw [2]) 0 [3]).2 ∧
    (serverInitEscrow (serverInitEscrow ⟨[]⟩ (Addr.raw [1]) (Addr.raw [2]) 0 [3]).2
        (Addr.raw [1]) (Addr.raw [2]) 0 [3]).1.signature = "" ∧
    (serverInitEscrow (serverInitEscrow ⟨[]⟩ (Addr.raw [1]) (Addr.raw [2]) 0 [3]).2
        (Addr.raw [1]) (Addr.raw [2]) 0 [3]).1.escrow =
      (findEscrowPDA (Addr.raw [1]) (Addr.raw [2]) [3]).1 ∧
    ((serverInitEscrow (serverInitEscrow ⟨[]⟩ (Addr.raw [1]) (Addr.raw [2]) 0 [3]).2
        (Addr.raw [1]) (Addr.raw [2]) 0 [3]).2.accounts.filter
      (fun a => decide (a = (findEscrowPDA (Addr.raw [1]) (Addr.raw [2]) [3]).1))).length = 1 :=
  claim6_initEscrow_idempotent ⟨[]⟩ (Addr.raw [1]) (Addr.raw [2]) 0 [3] (by decide)

/-- Claim C7: whenever the connected signer differs from the expected
depositor, the store `createDeposit` fails with the hard authorization error
before anything is handed to the transaction executor. -/
theorem claim7_depositor_mismatch (prov : Provider) (p : DepositParams) (programId : Bytes)
    (w : Addr) (hp : prov.pubkey = some w) (hw : prov.hasWallet = true)
    (hne : w.bytes ≠ p.depositorPublicKey.bytes) :
    storeCreateDeposit (some prov) p programId = .error depositorMismatchMsg := by
  rcases prov with ⟨pk, hwb⟩
  obtain rfl : pk = some w := hp
  obtain rfl : hwb = true := hw
  simp only [storeCreateDeposit]
  rw [if_neg hne]

/-- Witness for C7 with a connected wallet that is not the depositor. -/
theorem claim7_witness :
    storeCreateDeposit (some ⟨some (Addr.raw [1]), true⟩)
        ⟨Addr.raw [2], Addr.raw [9], Addr.raw [3], Stable.usdc, AuthorizedBy.sender, 0⟩ [7] =
      .error depositorMismatchMsg :=
  claim7_depositor_mismatch ⟨some (Addr.raw [1]), true⟩
    ⟨Addr.raw [2], Addr.raw [9], Addr.raw [3], Stable.usdc, AuthorizedBy.sender, 0⟩ [7]
    (Addr.raw [1]) rfl rfl (by decide)

/-- Claim C1: the store `createDeposit` builds the deposit record for the
hard-coded index 0 (line 533) regardless of the escrow's on-ledger deposit
counter, so for any counter value other than 0 the assigned index disagrees
with the counter — the index is a constant, never read from the ledger. -/
theorem claim1_store_constant_index (program : Option Provider) (p : DepositParams)
    (programId : Bytes) (ix : BuiltIx)
    (hok : storeCreateDeposit program p programId = .ok ix)
    (c : Nat) (hc0 : c ≠ 0) (hc64 : c < 2 ^ 64) :
    ix.depositRecord = (findDepositRecordPDA p.escrowPublicKey 0 programId).1 ∧
    ix.depositRecord ≠ (findDepositRecordPDA p.escrowPublicKey c programId).1 := by
  have hbuf : bufCopy (leBytes 4 0) (bufAlloc 8) 0 = leBytes 8 0 := by decide
  have hzero : depositIdxBuf 0 = leBytes 8 0 := by decide
  have hc : depositIdxBuf c = leBytes 8 c := by
    simp only [depositIdxBuf, idxBufBigIntPath]
    rw [if_pos hc64]
  rcases program with _ | ⟨pk, hwb⟩
  · simp [storeCreateDeposit] at hok
  rcases pk with _ | w
  · simp [storeCreateDeposit] at hok
  cases hwb
  · simp [storeCreateDeposit] at hok
  simp only [storeCreateDeposit] at hok
  by_cases hmatch : w.bytes = p.depositorPublicKey.bytes
  · rw [if_pos hmatch] at hok
    injection hok with hix
    rw [← hix]
    constructor
    · simp only [findDepositRecordPDA, findProgramAddressSync, hzero, hbuf]
    · simp only [findDepositRecordPDA, findProgramAddressSync, hbuf, hc]
      intro hEq
      injection hEq with hs _
      simp only [List.cons.injEq] at hs
      have h0c : (0 : Nat) = c := by
        have h256 : (2 : Nat) ^ 64 = 256 ^ 8 := by norm_num
        exact leBytes_injOn (by positivity) (by rw [← h256]; exact hc64) hs.2.2.1
      exact hc0 h0c.symm
  · rw [if_neg hmatch] at hok
    simp at hok

/-- Witness for C1: a concrete deposit call whose built record is the one
for index 0 and differs from the record for counter value 1. -/
theorem claim1_witness :
    (⟨[98, 231, 20, 217, 235, 33, 213, 28, 0, 0, 0, 0, 0, 0, 0, 0],
        Addr.pda [[100, 101, 112, 111, 115, 105, 116], [2], [0, 0, 0, 0, 0, 0, 0, 0]] [7]⟩ :
      BuiltIx).depositRecord = (findDepositRecordPDA (Addr.raw [2]) 0 [7]).1 ∧
    (⟨[98, 231, 20, 217, 235, 33, 213, 28, 0, 0, 0, 0, 0, 0, 0, 0],
        Addr.pda [[100, 101, 112, 111, 115, 105, 116], [2], [0, 0, 0, 0, 0, 0, 0, 0]] [7]⟩ :
      BuiltIx).depositRecord ≠ (findDepositRecordPDA (Addr.raw [2]) 1 [7]).1 :=
  claim1_store_constant_index (some ⟨some (Addr.raw [1]), true⟩)
    ⟨Addr.raw [2], Addr.raw [1], Addr.raw [3], Stable.usdc, AuthorizedBy.sender, 0⟩ [7]
    ⟨[98, 231, 20, 217, 235, 33, 213, 28, 0, 0, 0, 0, 0, 0, 0, 0],
      Addr.pda [[100, 101, 112, 111, 115, 105, 116], [2], [0, 0, 0, 0, 0, 0, 0, 0]] [7]⟩
    rfl 1 (by decide) (by decide)

/-- Claim C8 is refuted at a concrete call: with a connected wallet that is
not the original depositor (and no account state consulted at all), the
store `cancelDeposit` proceeds to build and submit the cancel instruction
instead of failing fast. -/
theorem claim8_counterexample :
    isOk (storeCancelDeposit (some ⟨some (Addr.raw [1]), true⟩)
        ⟨Addr.raw [5], Addr.raw [3], Addr.raw [4], 0⟩ [7]) = true ∧
    (Addr.raw [1]).bytes ≠ (Addr.raw [3]).bytes := by
  decide

/-- Claim C8 as amended: the store `cancelDeposit` pre-checks only that a
wallet is connected; with any connected wallet it proceeds to submission
regardless of who the signer is (the built operation does not depend on the
connected key), and it reads no deposit-record state before submitting. -/
theorem claim8_amended (prov : Provider) (p : CancelParams) (programId : Bytes)
    (w : Addr) (hp : prov.pubkey = some w) (hw : prov.hasWallet = true) :
    isOk (storeCancelDeposit (some prov) p programId) = true ∧
    (∀ w2 : Addr, storeCancelDeposit (some ⟨some w, true⟩) p programId =
      storeCancelDeposit (some ⟨some w2, true⟩) p programId) := by
  rcases prov with ⟨pk, hwb⟩
  obtain rfl : pk = some w := hp
  obtain rfl : hwb = true := hw
  exact ⟨rfl, fun w2 => rfl⟩

/-- Witness for the amended C8 with a wallet distinct from the depositor. -/
theorem claim8_witness :
    isOk (storeCancelDeposit (some ⟨some (Addr.raw [9]), true⟩)
        ⟨Addr.raw [5], Addr.raw [3], Addr.raw [4], 2⟩ [7]) = true ∧
    (∀ w2 : Addr, storeCancelDeposit (some ⟨some (Addr.raw [9]), true⟩)
        ⟨Addr.raw [5], Addr.raw [3], Addr.raw [4], 2⟩ [7] =
      storeCancelDeposit (some ⟨some w2, true⟩)
        ⟨Addr.raw [5], Addr.raw [3], Addr.raw [4], 2⟩ [7]) :=
  claim8_amended ⟨some (Addr.raw [9]), true⟩ ⟨Addr.raw [5], Addr.raw [3], Addr.raw [4], 2⟩
    [7] (Addr.raw [9]) rfl rfl

end Senda
